import Mathlib

/-!
Shallow embedding of the feedback buffering crate
(`codex-rs/feedback/src/lib.rs`): a bounded in-memory ring buffer over
bytes, a writer feeding it through a mutex, and snapshot / persist
operations.

Modelling conventions:
* bytes are `Nat`; the `VecDeque<u8>` is a `List Nat` whose head is the
  front (oldest byte) of the deque;
* `usize` arithmetic is `Nat` arithmetic (truncated subtraction only
  appears under the source's guards; `RingBuffer.push_bytes_checked`
  mirrors the code with checked subtractions to show no underflow);
* mutex poisoning is an explicit `poisoned : Bool` argument to the
  operations that take the lock;
* a panic / fatal abort (`.expect`) is the `Outcome.fatal` constructor,
  an `io::Error` is `Outcome.err`, success is `Outcome.ok`;
* methods taking `&self` are embedded as pure functions of the state;
  `RingBuffer.snapshot_bytes_run` additionally threads the state
  explicitly to express non-mutation;
* the filesystem in `save_to_temp_file` is embedded by passing the
  temporary directory (as path components) and the outcome of
  `fs::write` as arguments, and returning the performed file write.
-/

/-- `DEFAULT_MAX_BYTES: usize = 4 * 1024 * 1024`. -/
def DEFAULT_MAX_BYTES : Nat := 4 * 1024 * 1024

/-- `struct RingBuffer { max: usize, buf: VecDeque<u8> }`. -/
structure RingBuffer where
  max : Nat
  buf : List Nat
deriving Repr, DecidableEq

/-- `RingBuffer::new(capacity)`: `VecDeque::with_capacity` only
pre-allocates, the deque starts empty. -/
def RingBuffer.new (capacity : Nat) : RingBuffer :=
  { max := capacity, buf := [] }

/-- `RingBuffer::len`. -/
def RingBuffer.len (rb : RingBuffer) : Nat := rb.buf.length

/-- `RingBuffer::push_bytes(&mut self, data: &[u8])`.
`data.is_empty()` returns unchanged; `data.len() >= self.max` clears and
keeps `data[data.len() - max ..]`; otherwise when
`needed = len + data.len() > max` it pops `needed - max` bytes from the
front (`List.drop`) and then extends with `data`. -/
def RingBuffer.push_bytes (rb : RingBuffer) (data : List Nat) : RingBuffer :=
  if data.isEmpty then rb
  else if rb.max ≤ data.length then
    { rb with buf := data.drop (data.length - rb.max) }
  else
    let needed := rb.len + data.length
    if rb.max < needed then
      { rb with buf := rb.buf.drop (needed - rb.max) ++ data }
    else
      { rb with buf := rb.buf ++ data }

/-- `RingBuffer::snapshot_bytes(&self)`:
`self.buf.iter().copied().collect()`, an element-wise copy of the deque
in front-to-back order. -/
def RingBuffer.snapshot_bytes (rb : RingBuffer) : List Nat :=
  rb.buf.map id

/-- State-passing form of the `&self` method `snapshot_bytes`: a shared
borrow cannot mutate, so the receiver state is returned unchanged. -/
def RingBuffer.snapshot_bytes_run (rb : RingBuffer) : List Nat × RingBuffer :=
  (rb.snapshot_bytes, rb)

/-- A sequence of `push_bytes` calls, oldest call first. -/
def RingBuffer.pushAll (rb : RingBuffer) (chunks : List (List Nat)) : RingBuffer :=
  chunks.foldl RingBuffer.push_bytes rb

/-- Rust `usize` subtraction that panics on underflow (debug mode),
modelled as `Option`. -/
def checkedSub (a b : Nat) : Option Nat :=
  if b ≤ a then some (a - b) else none

/-- `RingBuffer::push_bytes` with the two subtractions
`data.len() - self.max` and `needed - self.max` taken as checked
(panic-on-underflow) subtractions; `none` means the Rust code would
have panicked. -/
def RingBuffer.push_bytes_checked (rb : RingBuffer) (data : List Nat) :
    Option RingBuffer :=
  if data.isEmpty then some rb
  else if rb.max ≤ data.length then
    (checkedSub data.length rb.max).map fun start =>
      { rb with buf := data.drop start }
  else
    let needed := rb.len + data.length
    if rb.max < needed then
      (checkedSub needed rb.max).map fun to_drop =>
        { rb with buf := rb.buf.drop to_drop ++ data }
    else
      some { rb with buf := rb.buf ++ data }

/-- The error kinds an embedded operation can surface
(`io::ErrorKind::Other` is what the writer produces; the others stand
for arbitrary underlying `fs::write` failures). -/
inductive IoErrorKind where
  | other
  | notFound
  | permissionDenied
deriving Repr, DecidableEq

/-- Result of running an embedded operation: normal success, an
`io::Error`-class failure reported to the caller, or a fatal
panic/abort of the current operation (`.expect` on a poisoned mutex). -/
inductive Outcome (ε α : Type) where
  | fatal : Outcome ε α
  | err : ε → Outcome ε α
  | ok : α → Outcome ε α

/-- Whether an outcome is the fatal abort. -/
def Outcome.isFatal {ε α : Type} : Outcome ε α → Bool
  | .fatal => true
  | _ => false

/-- `impl Write for FeedbackWriter`, `fn write`:
`self.inner.ring.lock().map_err(|_| io::ErrorKind::Other)?` fails with a
generic I/O error iff the mutex is poisoned, leaving the buffer alone;
otherwise `guard.push_bytes(buf); Ok(buf.len())`.  Returns the write
result together with the ring buffer state afterwards. -/
def FeedbackWriter.write (poisoned : Bool) (rb : RingBuffer) (buf : List Nat) :
    Outcome IoErrorKind Nat × RingBuffer :=
  if poisoned then (Outcome.err IoErrorKind.other, rb)
  else (Outcome.ok buf.length, rb.push_bytes buf)

/-- `impl Write for FeedbackWriter`, `fn flush`: `Ok(())`, no lock taken. -/
def FeedbackWriter.flush : Outcome IoErrorKind Unit :=
  Outcome.ok ()

/-- `CodexLogSnapshot { bytes, thread_id }`. -/
structure CodexLogSnapshot where
  bytes : List Nat
  thread_id : String
deriving Repr, DecidableEq

/-- `CodexLogSnapshot::as_bytes`. -/
def CodexLogSnapshot.as_bytes (s : CodexLogSnapshot) : List Nat :=
  s.bytes

/-- `CodexFeedback::snapshot(&self, session_id)`:
`self.inner.ring.lock().expect("mutex poisoned")` aborts fatally when
the mutex is poisoned; otherwise copies the bytes and attaches
`session_id`, or `"no-active-thread-" + ConversationId::new()` when
absent.  `ConversationId` values are modelled as `String`; `freshId`
models the freshly generated `ConversationId::new().to_string()`. -/
def CodexFeedback.snapshot (poisoned : Bool) (rb : RingBuffer)
    (session_id : Option String) (freshId : String) :
    Outcome Empty CodexLogSnapshot :=
  if poisoned then Outcome.fatal
  else
    Outcome.ok
      { bytes := rb.snapshot_bytes
        thread_id :=
          match session_id with
          | some id => id
          | none => "no-active-thread-" ++ freshId }

/-- A file write performed against the filesystem: absolute path as
components, and the bytes written. -/
structure FileWrite where
  path : List String
  contents : List Nat
deriving Repr, DecidableEq

/-- `CodexLogSnapshot::save_to_temp_file(&self)`:
`std::env::temp_dir()` is passed in as `temp_dir` (path components);
the file name is `format!("codex-feedback-\x7b\x7d.log", self.thread_id)`;
`fs::write(&path, self.as_bytes())?` either fails with an underlying
error `e` (modelled by `fsError = some e`), which is propagated, or
writes the snapshot bytes verbatim, after which the path is returned.
Alongside the result the performed `FileWrite` (if any) is returned. -/
def CodexLogSnapshot.save_to_temp_file (s : CodexLogSnapshot)
    (temp_dir : List String) (fsError : Option IoErrorKind) :
    Outcome IoErrorKind (List String) × Option FileWrite :=
  let filename := "codex-feedback-" ++ s.thread_id ++ ".log"
  let path := temp_dir ++ [filename]
  match fsError with
  | some e => (Outcome.err e, none)
  | none => (Outcome.ok path, some { path := path, contents := s.as_bytes })

/-! ### Basic lemmas about `push_bytes` -/

/-- Unfolding of `push_bytes` on a non-empty chunk. -/
lemma RingBuffer.push_bytes_ne_nil (rb : RingBuffer) (data : List Nat)
    (hd : data ≠ []) :
    rb.push_bytes data =
      if rb.max ≤ data.length then
        { rb with buf := data.drop (data.length - rb.max) }
      else if rb.max < rb.len + data.length then
        { rb with buf := rb.buf.drop (rb.len + data.length - rb.max) ++ data }
      else
        { rb with buf := rb.buf ++ data } := by
  unfold RingBuffer.push_bytes
  rw [if_neg (by simp [hd])]

/-- One `push_bytes` step in terms of the full append history: if the
buffer holds the last `C` bytes of history `h` (all of `h` while
shorter than `C`), then after pushing `data` it holds the last `C`
bytes of `h ++ data`. -/
lemma RingBuffer.push_bytes_history (C : Nat) (h data : List Nat) :
    RingBuffer.push_bytes ⟨C, h.drop (h.length - C)⟩ data
      = ⟨C, (h ++ data).drop ((h ++ data).length - C)⟩ := by
  rcases eq_or_ne data [] with hd | hd
  · subst hd
    simp [RingBuffer.push_bytes]
  · have hpos : 0 < data.length := List.length_pos.mpr hd
    rw [RingBuffer.push_bytes_ne_nil _ _ hd]
    by_cases hbig : C ≤ data.length
    · rw [if_pos hbig]
      simp only [RingBuffer.mk.injEq, true_and, List.length_append]
      rw [show h.length + data.length - C = h.length + (data.length - C) by omega,
        List.drop_append]
    · rw [if_neg hbig]
      simp only [RingBuffer.len, List.length_drop, List.length_append,
        RingBuffer.mk.injEq, true_and]
      by_cases hov : C < h.length - (h.length - C) + data.length
      · rw [if_pos hov]
        rw [List.drop_drop,
          List.drop_append_of_le_length (by omega),
          show h.length - C + (h.length - (h.length - C) + data.length - C)
              = h.length + data.length - C by omega]
      · rw [if_neg hov]
        have h1 : h.length - C = 0 := by omega
        have h2 : h.length + data.length - C = 0 := by omega
        rw [h1, h2, List.drop_zero, List.drop_zero]

/-- A whole sequence of `push_bytes` calls in terms of history. -/
lemma RingBuffer.pushAll_history (C : Nat) (chunks : List (List Nat)) :
    ∀ h : List Nat,
      RingBuffer.pushAll ⟨C, h.drop (h.length - C)⟩ chunks
        = ⟨C, (h ++ chunks.flatten).drop ((h ++ chunks.flatten).length - C)⟩ := by
  induction chunks with
  | nil => intro h; simp [RingBuffer.pushAll]
  | cons c cs ih =>
      intro h
      show RingBuffer.pushAll
        (RingBuffer.push_bytes ⟨C, h.drop (h.length - C)⟩ c) cs = _
      rw [RingBuffer.push_bytes_history, ih (h ++ c)]
      simp [List.append_assoc]

/-- Starting from `RingBuffer::new C`, the buffer after any sequence of
pushes is the history with all but its last `C` bytes dropped. -/
lemma RingBuffer.pushAll_new (C : Nat) (chunks : List (List Nat)) :
    RingBuffer.pushAll (RingBuffer.new C) chunks
      = ⟨C, chunks.flatten.drop (chunks.flatten.length - C)⟩ := by
  have h := RingBuffer.pushAll_history C chunks []
  simpa [RingBuffer.new] using h

/-- Unfolding of `push_bytes_checked` on a non-empty chunk. -/
lemma RingBuffer.push_bytes_checked_ne_nil (rb : RingBuffer) (data : List Nat)
    (hd : data ≠ []) :
    rb.push_bytes_checked data =
      if rb.max ≤ data.length then
        (checkedSub data.length rb.max).map fun start =>
          { rb with buf := data.drop start }
      else if rb.max < rb.len + data.length then
        (checkedSub (rb.len + data.length) rb.max).map fun to_drop =>
          { rb with buf := rb.buf.drop to_drop ++ data }
      else
        some { rb with buf := rb.buf ++ data } := by
  unfold RingBuffer.push_bytes_checked
  rw [if_neg (by simp [hd])]

/-! ### Claim theorems -/

/-- C1 (suffix retention): after any sequence of `push_bytes` calls on
`RingBuffer::new C` whose total appended length is at least `C`, the
buffer holds exactly the last `C` bytes of the concatenated append
history, in original order. -/
theorem claim_suffix_retention (C : Nat) (chunks : List (List Nat))
    (h : C ≤ chunks.flatten.length) :
    (RingBuffer.pushAll (RingBuffer.new C) chunks).buf
      = chunks.flatten.drop (chunks.flatten.length - C) ∧
    (RingBuffer.pushAll (RingBuffer.new C) chunks).len = C := by
  rw [RingBuffer.pushAll_new]
  refine ⟨rfl, ?_⟩
  simp only [RingBuffer.len, List.length_drop]
  omega

/-- Witness for C1: capacity 2, pushing `[1,2]` then `[3]` (history of
length 3 ≥ 2) retains exactly `[2, 3]`. -/
theorem claim_suffix_retention_witness :
    2 ≤ ([[1, 2], [3]] : List (List Nat)).flatten.length ∧
    (RingBuffer.pushAll (RingBuffer.new 2) [[1, 2], [3]]).buf = [2, 3] := by
  refine ⟨by decide, ?_⟩
  rw [(claim_suffix_retention 2 [[1, 2], [3]] (by decide)).1]
  decide

/-- C2 (capacity bound): for every capacity `C` and every sequence of
`push_bytes` calls on `RingBuffer::new C`, after each call (i.e. after
every prefix of the sequence) the buffer length is at most `C`. -/
theorem claim_capacity_bound (C : Nat) (chunks : List (List Nat)) (i : Nat) :
    (RingBuffer.pushAll (RingBuffer.new C) (chunks.take i)).len ≤ C := by
  rw [RingBuffer.pushAll_new]
  simp only [RingBuffer.len, List.length_drop]
  omega

/-- C3 (oversized chunk): for a (positive-capacity, per the data model)
buffer in any state, pushing a chunk at least as long as the capacity
leaves exactly the trailing `max` bytes of that chunk, all previous
contents discarded. -/
theorem claim_oversized_chunk (rb : RingBuffer) (data : List Nat)
    (hcap : 0 < rb.max) (hbig : rb.max ≤ data.length) :
    (rb.push_bytes data).buf = data.drop (data.length - rb.max) ∧
    (rb.push_bytes data).buf.length = rb.max := by
  have hd : data ≠ [] := by
    intro e
    subst e
    simp only [List.length_nil, Nat.le_zero] at hbig
    omega
  rw [RingBuffer.push_bytes_ne_nil _ _ hd, if_pos hbig]
  refine ⟨rfl, ?_⟩
  simp only [List.length_drop]
  omega

/-- Witness for C3, the spec scenario: capacity 4, prior contents
`[1,2,3]`, a single 7-byte write of `"abcdefg"` yields `"defg"`. -/
theorem claim_oversized_chunk_witness :
    0 < (RingBuffer.mk 4 [1, 2, 3]).max ∧
    (RingBuffer.mk 4 [1, 2, 3]).max
      ≤ ([97, 98, 99, 100, 101, 102, 103] : List Nat).length ∧
    (RingBuffer.push_bytes ⟨4, [1, 2, 3]⟩ [97, 98, 99, 100, 101, 102, 103]).buf
      = [100, 101, 102, 103] := by
  refine ⟨by decide, by decide, ?_⟩
  rw [(claim_oversized_chunk ⟨4, [1, 2, 3]⟩ [97, 98, 99, 100, 101, 102, 103]
    (by decide) (by decide)).1]
  decide

/-- C4 (minimal front eviction): pushing a non-empty chunk shorter than
the capacity evicts exactly `len + |data| − max` bytes from the front
when the bound would be exceeded (none otherwise) and then appends the
chunk at the back in order. -/
theorem claim_front_eviction (rb : RingBuffer) (data : List Nat)
    (h0 : data ≠ []) (h1 : data.length < rb.max) :
    (rb.max < rb.len + data.length →
      (rb.push_bytes data).buf
        = rb.buf.drop (rb.len + data.length - rb.max) ++ data) ∧
    (rb.len + data.length ≤ rb.max →
      (rb.push_bytes data).buf = rb.buf ++ data) := by
  rw [RingBuffer.push_bytes_ne_nil _ _ h0, if_neg (by omega)]
  constructor
  · intro hov
    rw [if_pos hov]
  · intro hfit
    rw [if_neg (by omega)]

/-- Witness for C4, the spec scenario: capacity 8, write `"abcdefgh"`
then `"ij"`; two bytes are evicted from the front and the snapshot is
`"cdefghij"`. -/
theorem claim_front_eviction_witness :
    (([105, 106] : List Nat) ≠ []) ∧
    ([105, 106] : List Nat).length
      < ((RingBuffer.new 8).push_bytes [97, 98, 99, 100, 101, 102, 103, 104]).max ∧
    ((RingBuffer.new 8).push_bytes [97, 98, 99, 100, 101, 102, 103, 104]).max
      < ((RingBuffer.new 8).push_bytes [97, 98, 99, 100, 101, 102, 103, 104]).len
        + ([105, 106] : List Nat).length ∧
    (((RingBuffer.new 8).push_bytes
        [97, 98, 99, 100, 101, 102, 103, 104]).push_bytes [105, 106]).buf
      = [99, 100, 101, 102, 103, 104, 105, 106] := by
  refine ⟨by decide, by decide, by decide, ?_⟩
  rw [(claim_front_eviction
    ((RingBuffer.new 8).push_bytes [97, 98, 99, 100, 101, 102, 103, 104])
    [105, 106] (by decide) (by decide)).1 (by decide)]
  decide

/-- C5 (`Writer::write` contract): with the lock acquired the write
pushes `buf` and returns `Ok(buf.len())` (never a short write); with
the lock unavailable it returns a generic I/O error and leaves the
buffer unchanged. -/
theorem claim_writer_write (rb : RingBuffer) (buf : List Nat) :
    FeedbackWriter.write false rb buf
      = (Outcome.ok buf.length, rb.push_bytes buf) ∧
    FeedbackWriter.write true rb buf
      = (Outcome.err IoErrorKind.other, rb) :=
  ⟨rfl, rfl⟩

/-- C6 (asymmetric lock-failure handling): on a poisoned mutex the
write path reports a generic I/O error, leaves the state unchanged and
is never fatal for any lock state, while the snapshot path aborts
fatally instead of returning data. -/
theorem claim_lock_failure_asymmetry (rb : RingBuffer) (buf : List Nat)
    (sid : Option String) (freshId : String) :
    (FeedbackWriter.write true rb buf).1 = Outcome.err IoErrorKind.other ∧
    (FeedbackWriter.write true rb buf).2 = rb ∧
    (∀ p : Bool, ((FeedbackWriter.write p rb buf).1).isFatal = false) ∧
    CodexFeedback.snapshot true rb sid freshId = Outcome.fatal := by
  refine ⟨rfl, rfl, ?_, rfl⟩
  intro p
  cases p <;> rfl

/-- C7 (empty write is a no-op): pushing the empty chunk leaves the
whole buffer state, hence its contents and their length, unchanged. -/
theorem claim_empty_write_noop (rb : RingBuffer) :
    rb.push_bytes [] = rb ∧ (rb.push_bytes []).buf.length = rb.buf.length :=
  ⟨rfl, rfl⟩

/-- C8 (snapshot purity and idempotence): `snapshot_bytes` returns a
full ordered copy of the contents, leaves the state unchanged, and a
second call with no intervening write returns identical bytes. -/
theorem claim_snapshot_pure (rb : RingBuffer) :
    rb.snapshot_bytes = rb.buf ∧
    (RingBuffer.snapshot_bytes_run rb).2 = rb ∧
    (RingBuffer.snapshot_bytes_run ((RingBuffer.snapshot_bytes_run rb).2)).1
      = (RingBuffer.snapshot_bytes_run rb).1 :=
  ⟨List.map_id rb.buf, rfl, rfl⟩

/-- C9 (snapshot persistence): on success `save_to_temp_file` writes the
snapshot bytes verbatim to the temp-directory file named exactly
`codex-feedback-<identifier>.log` and returns that path; on an
underlying write failure the error is propagated and nothing else
happens.  (The function takes no buffer state at all: it can neither
mutate nor re-read the live buffer.) -/
theorem claim_save_to_temp_file (s : CodexLogSnapshot) (temp_dir : List String) :
    (s.save_to_temp_file temp_dir none).1
      = Outcome.ok (temp_dir ++ ["codex-feedback-" ++ s.thread_id ++ ".log"]) ∧
    (s.save_to_temp_file temp_dir none).2
      = some { path := temp_dir ++ ["codex-feedback-" ++ s.thread_id ++ ".log"],
               contents := s.bytes } ∧
    (∀ e : IoErrorKind, (s.save_to_temp_file temp_dir (some e)).1 = Outcome.err e) ∧
    (∀ e : IoErrorKind, (s.save_to_temp_file temp_dir (some e)).2 = none) :=
  ⟨rfl, rfl, fun _ => rfl, fun _ => rfl⟩

/-- C10 (zero-capacity totality): the guarded subtractions in
`push_bytes` never underflow — the checked-subtraction version agrees
with the total one on every state and chunk — and on a buffer of
capacity 0 every sequence of pushes leaves the contents empty. -/
theorem claim_zero_capacity_total :
    (∀ (rb : RingBuffer) (data : List Nat),
      rb.push_bytes_checked data = some (rb.push_bytes data)) ∧
    (∀ chunks : List (List Nat),
      (RingBuffer.pushAll (RingBuffer.new 0) chunks).buf = []) := by
  constructor
  · intro rb data
    rcases eq_or_ne data [] with hd | hd
    · subst hd
      rfl
    · rw [RingBuffer.push_bytes_ne_nil _ _ hd,
        RingBuffer.push_bytes_checked_ne_nil _ _ hd]
      by_cases h1 : rb.max ≤ data.length
      · rw [if_pos h1, if_pos h1]
        simp [checkedSub, h1]
      · rw [if_neg h1, if_neg h1]
        by_cases h2 : rb.max < rb.len + data.length
        · rw [if_pos h2, if_pos h2]
          simp [checkedSub, Nat.le_of_lt h2]
        · rw [if_neg h2, if_neg h2]
  · intro chunks
    rw [RingBuffer.pushAll_new]
    simp
